import Mathlib

/-!
Shallow embedding of `script_args_parser/parser.py` (argument resolution and
tokenization engine).  Python strings are modelled as Lean `String`/`List Char`;
fallible Python code (raised exceptions) is modelled with `Except String`,
the error payload being the exception message.  The two stdlib tokenizers the
code relies on (`shlex.split`, i.e. a POSIX-mode lexer with whitespace
splitting, and a non-POSIX `shlex.shlex` instance whose whitespace is `;`)
are embedded as explicit state machines following the CPython `shlex`
implementation.
-/

namespace ScriptArgsParser

/-- ASCII whitespace stripped by Python `str.strip()` (the inputs in play are
ASCII, so the wider Unicode set is not modelled). -/
def pySpace (c : Char) : Bool :=
  c = ' ' || c = '\t' || c = '\n' || c = '\r' || c = Char.ofNat 11 || c = Char.ofNat 12

/-- Python `str.strip()` on a character list. -/
def pyStrip (l : List Char) : List Char :=
  ((l.dropWhile pySpace).reverse.dropWhile pySpace).reverse

/-- Python `str.strip()`. -/
def pyStripStr (s : String) : String :=
  (pyStrip s.data).asString

/-- Digit run of a base-10 Python integer literal: digits with single
underscores allowed between digits (CPython grammar `digit (["_"] digit)*`). -/
def pyDigits : Nat → List Char → Option Nat
  | acc, [] => some acc
  | acc, '_' :: c :: rest =>
      if c.isDigit then pyDigits (acc * 10 + (c.toNat - 48)) rest else none
  | acc, c :: rest =>
      if c.isDigit then pyDigits (acc * 10 + (c.toNat - 48)) rest else none

/-- Body of a Python int literal after the optional sign: at least one digit,
underscores only between digits. -/
def pyIntBody : List Char → Option Nat
  | [] => none
  | c :: rest => if c.isDigit then pyDigits (c.toNat - 48) rest else none

/-- CPython `int(s)` on a decimal string: surrounding whitespace stripped,
optional sign, base-10 digits; raises `ValueError` (modelled as `none`
lifted to an error message) otherwise. -/
def pyInt (s : String) : Except String Int :=
  let core : Option Int :=
    match pyStrip s.data with
    | '+' :: rest => (pyIntBody rest).map Int.ofNat
    | '-' :: rest => (pyIntBody rest).map (fun n => -(Int.ofNat n))
    | l => (pyIntBody l).map Int.ofNat
  match core with
  | some n => Except.ok n
  | none => Except.error s!"invalid literal for int() with base 10: {s}"

/-- `str_to_bool` from the source: the literal strings `"0"`/`"False"` map to
false, `"1"`/`"True"` to true, and otherwise Python `bool(value)` is used,
which for a string is truthiness, i.e. non-emptiness. -/
def str_to_bool (value : String) : Bool :=
  if value ∈ ["0", "False"] then false
  else if value ∈ ["1", "True"] then true
  else value ≠ ""

/-- A typed Python value produced by the converters of `TYPES_MAPPING`. -/
inductive Value
  | str (s : String)
  | int (n : Int)
  | bool (b : Bool)
  deriving DecidableEq, Repr

/-- The converter `TYPES_MAPPING` assigns to the `bool` and `switch` kinds. -/
def boolSwitchConv (s : String) : Except String Value :=
  Except.ok (Value.bool (str_to_bool s))

/-- The converter for the `str` kind (Python `str` on a string is identity). -/
def strConv (s : String) : Except String Value :=
  Except.ok (Value.str s)

/-- The converter for the `int` kind (Python `int`). -/
def intConv (s : String) : Except String Value :=
  (pyInt s).map Value.int

/-- `ArgumentsParser.TYPES_MAPPING`: maps type-name strings to converters.
A missing key is `none` (a Python dict lookup on it raises `KeyError`). -/
def TYPES_MAPPING (ty : String) : Option (String → Except String Value) :=
  if ty = "str" then some strConv
  else if ty = "int" then some intConv
  else if ty = "bool" then some boolSwitchConv
  else if ty = "switch" then some boolSwitchConv
  else none

/-! ### POSIX `shlex.split`

`shlex.split(s)` builds `shlex(s, posix=True)` with `whitespace_split=True`
and `commenters=''` (comments disabled).  Relevant configuration:
whitespace is space, tab, CR, LF; quote characters are `'` and `"`;
the escape character is backslash; inside double quotes a backslash escapes
only the backslash and the double quote itself. -/

/-- Whitespace characters of the default shlex configuration. -/
def shWhitespace (c : Char) : Bool :=
  c = ' ' || c = '\t' || c = '\r' || c = '\n'

/-- State of the POSIX shlex state machine: skipping whitespace, inside a
word, inside a quote, after a backslash in a word, or after a backslash
inside a double quote. -/
inductive ShState
  | ws
  | word
  | quot (q : Char)
  | escWord
  | escQuote (q : Char)
  deriving DecidableEq, Repr

/-- One pass of the POSIX shlex lexer over the input.  Arguments: state,
remaining input, current token (reversed), whether the current token saw a
quote (a quoted empty token is still emitted), accumulated tokens
(reversed).  Errors mirror the `ValueError`s CPython raises. -/
def shlexSplitAux : ShState → List Char → List Char → Bool → List String →
    Except String (List String)
  | ShState.ws, [], _, _, acc => Except.ok acc.reverse
  | ShState.ws, c :: rest, _, _, acc =>
      if shWhitespace c then shlexSplitAux ShState.ws rest [] false acc
      else if c = '\\' then shlexSplitAux ShState.escWord rest [] false acc
      else if c = '\'' || c = '"' then shlexSplitAux (ShState.quot c) rest [] true acc
      else shlexSplitAux ShState.word rest [c] false acc
  | ShState.word, [], tok, quoted, acc =>
      if tok ≠ [] || quoted then Except.ok ((tok.reverse.asString :: acc)).reverse
      else Except.ok acc.reverse
  | ShState.word, c :: rest, tok, quoted, acc =>
      if shWhitespace c then
        if tok ≠ [] || quoted then
          shlexSplitAux ShState.ws rest [] false (tok.reverse.asString :: acc)
        else shlexSplitAux ShState.ws rest [] false acc
      else if c = '\'' || c = '"' then shlexSplitAux (ShState.quot c) rest tok true acc
      else if c = '\\' then shlexSplitAux ShState.escWord rest tok quoted acc
      else shlexSplitAux ShState.word rest (c :: tok) quoted acc
  | ShState.quot _, [], _, _, _ => Except.error "No closing quotation"
  | ShState.quot q, c :: rest, tok, _, acc =>
      if c = q then shlexSplitAux ShState.word rest tok true acc
      else if q = '"' && c = '\\' then shlexSplitAux (ShState.escQuote q) rest tok true acc
      else shlexSplitAux (ShState.quot q) rest (c :: tok) true acc
  | ShState.escWord, [], _, _, _ => Except.error "No escaped character"
  | ShState.escWord, c :: rest, tok, quoted, acc =>
      shlexSplitAux ShState.word rest (c :: tok) quoted acc
  | ShState.escQuote _, [], _, _, _ => Except.error "No escaped character"
  | ShState.escQuote q, c :: rest, tok, quoted, acc =>
      if c ≠ '\\' ∧ c ≠ q then shlexSplitAux (ShState.quot q) rest (c :: '\\' :: tok) quoted acc
      else shlexSplitAux (ShState.quot q) rest (c :: tok) quoted acc

/-- `shlex.split(value)`: POSIX-mode, whitespace-splitting, comments off. -/
def shlexSplit (s : String) : Except String (List String) :=
  shlexSplitAux ShState.ws s.data [] false []

/-! ### The list splitter `_split_list`

It pads the value with one space on each side, then rewrites the first
occurrence of `;;` to `; ;` until none remains, then tokenizes with a
non-POSIX `shlex.shlex` whose `whitespace` is just `;` and with
`whitespace_split=True`.  In that configuration: `;` separates tokens, `#`
starts a comment running to the end of the line, a quote character opens a
quoted token only at token start (and the quotes are kept in the token),
and every other character — including spaces — is ordinary. -/

/-- Number of (overlapping) adjacent `;;` pairs; the `find(';;') != -1`
loop condition of the source is `hasDD` below, and `countDD` is the measure
that bounds the number of loop iterations. -/
def countDD : List Char → Nat
  | a :: b :: rest => (if a = ';' ∧ b = ';' then 1 else 0) + countDD (b :: rest)
  | _ => 0

/-- Python `value.find(';;') != -1`. -/
def hasDD : List Char → Bool
  | a :: b :: rest => (a = ';' && b = ';') || hasDD (b :: rest)
  | _ => false

/-- Python `value.replace(';;', '; ;', 1)`: replace the leftmost occurrence
of `;;` by `; ;`. -/
def replaceFirstDD : List Char → List Char
  | a :: b :: rest =>
      if a = ';' ∧ b = ';' then ';' :: ' ' :: ';' :: rest
      else a :: replaceFirstDD (b :: rest)
  | l => l

/-- The `while` loop of `_split_list`, run on an explicit iteration budget.
`countDD s` iterations always suffice (proved below), so `rewriteDD` below
computes exactly what the unbounded source loop computes. -/
def rewriteGo : Nat → List Char → List Char
  | 0, s => s
  | n + 1, s => if hasDD s then rewriteGo n (replaceFirstDD s) else s

/-- The doubled-delimiter rewrite loop of `_split_list`. -/
def rewriteDD (s : List Char) : List Char :=
  rewriteGo (countDD s) s

/-- State of the non-POSIX `;`-whitespace shlex: skipping separators,
inside a token, inside a quoted token, or inside a comment (started from
separator-skipping or from inside a token). -/
inductive LState
  | ws
  | word
  | quot (q : Char)
  | commentWs
  | commentWord
  deriving DecidableEq, Repr

/-- The non-POSIX shlex lexer with `whitespace = ';'`, `whitespace_split`
on and default commenters (`#`) and quotes.  Quotes are only special at
token start, are retained in the token, and a quoted token is emitted as
soon as the quote closes; `#` swallows input to the end of line; an
unterminated quote raises `ValueError` (modelled as an error). -/
def splitListAux : LState → List Char → List Char → List String →
    Except String (List String)
  | LState.ws, [], _, acc => Except.ok acc.reverse
  | LState.ws, c :: rest, _, acc =>
      if c = ';' then splitListAux LState.ws rest [] acc
      else if c = '#' then splitListAux LState.commentWs rest [] acc
      else if c = '\'' || c = '"' then splitListAux (LState.quot c) rest [c] acc
      else splitListAux LState.word rest [c] acc
  | LState.word, [], tok, acc =>
      if tok = [] then Except.ok acc.reverse
      else Except.ok (tok.reverse.asString :: acc).reverse
  | LState.word, c :: rest, tok, acc =>
      if c = ';' then
        if tok = [] then splitListAux LState.ws rest [] acc
        else splitListAux LState.ws rest [] (tok.reverse.asString :: acc)
      else if c = '#' then splitListAux LState.commentWord rest tok acc
      else splitListAux LState.word rest (c :: tok) acc
  | LState.quot _, [], _, _ => Except.error "No closing quotation"
  | LState.quot q, c :: rest, tok, acc =>
      if c = q then splitListAux LState.ws rest [] ((c :: tok).reverse.asString :: acc)
      else splitListAux (LState.quot q) rest (c :: tok) acc
  | LState.commentWs, [], _, acc => Except.ok acc.reverse
  | LState.commentWs, c :: rest, _, acc =>
      if c = '\n' then splitListAux LState.ws rest [] acc
      else splitListAux LState.commentWs rest [] acc
  | LState.commentWord, [], tok, acc =>
      if tok = [] then Except.ok acc.reverse
      else Except.ok (tok.reverse.asString :: acc).reverse
  | LState.commentWord, c :: rest, tok, acc =>
      if c = '\n' then splitListAux LState.word rest tok acc
      else splitListAux LState.commentWord rest tok acc

/-- `_split_list`: empty input short-circuits to `[""]`; otherwise the value
is padded with a space on both sides, the `;;` rewrite loop is run, and the
result is tokenized on `;`. -/
def splitList (value : String) : Except String (List String) :=
  if value = "" then Except.ok [""]
  else splitListAux LState.ws (rewriteDD (" " ++ value ++ " ").data) [] []

/-! ### Tuple / list / list-of-tuples parsing -/

/-- The message of the `RuntimeError` raised by `_parse_tuple` on an arity
mismatch; it names the argument, the expected and actual token counts, and
the offending raw string. -/
def mkArityMsg (name : String) (expected actual : Nat) (value : String) : String :=
  s!"Tuple {name} expected {expected} values and got {actual}: {value}."

/-- `_parse_tuple`: shell-tokenize the value; zero tokens short-circuit to
`[""]` (before any arity check); otherwise the token count must equal the
declared tuple arity, else a `RuntimeError` is raised. -/
def parseTuple (name : String) (tuple_types : List String) (value : String) :
    Except String (List String) := do
  let ret_val ← shlexSplit value
  if ret_val.length = 0 then
    return [""]
  let expected_number := tuple_types.length
  let actual_number := ret_val.length
  if actual_number ≠ expected_number then
    Except.error (mkArityMsg name expected_number actual_number value)
  else
    return ret_val

/-- The loop body of `_parse_list`: each element-string is shell-tokenized
and only the first token is kept (`parsed_value[0]`); an element with no
tokens contributes the empty string. -/
def parseListElems : List String → Except String (List String)
  | [] => Except.ok []
  | v :: rest => do
      let parsed ← shlexSplit v
      let x := match parsed with
        | [] => ""
        | x :: _ => x
      let xs ← parseListElems rest
      return x :: xs

/-- `_parse_list`: split on the list delimiter, then reduce each element to
the first shell token. -/
def parseList (value : String) : Except String (List String) := do
  let chunks ← splitList value
  parseListElems chunks

/-- The loop body of `_parse_list_of_tuples`: `_parse_tuple` applied to
each element-string in order, the first failure propagating. -/
def parseTuples (name : String) (tuple_types : List String) :
    List String → Except String (List (List String))
  | [] => Except.ok []
  | v :: rest => do
      let t ← parseTuple name tuple_types v
      let ts ← parseTuples name tuple_types rest
      return t :: ts

/-- `_parse_list_of_tuples`: list-split the whole raw string, then apply
tuple parsing to every element. -/
def parseListOfTuples (name : String) (tuple_types : List String) (value : String) :
    Except String (List (List String)) := do
  let chunks ← splitList value
  parseTuples name tuple_types chunks

/-! ### `Argument.__post_init__` — shape derivation from the type string

The source probes the type string with two regexes:
`re.match(r'list\x5b(.+)\x5d', type)` — anchored at the start, greedy group —
and `re.search(r'tuple\x5b(.+?)\x5d', type)` — anywhere, lazy group.
Neither validates the captured inner type against `TYPES_MAPPING`;
`__post_init__` raises nothing. -/

/-- Index of the last occurrence of a character in a list, if any. -/
def lastIdxOf (c : Char) : List Char → Option Nat
  | [] => none
  | x :: rest =>
      match lastIdxOf c rest with
      | some i => some (i + 1)
      | none => if x = c then some 0 else none

/-- The group captured by `re.match` of the list pattern: the string must
start with `list[`, and the greedy `.+` (which cannot cross a newline)
extends to the last closing bracket reachable without a newline, with at
least one character captured. -/
def listMatchGroup (ty : String) : Option String :=
  match ty.data with
  | 'l' :: 'i' :: 's' :: 't' :: '[' :: r =>
      let p := r.takeWhile (fun c => c ≠ '\n')
      match lastIdxOf ']' p with
      | some j => if 1 ≤ j then some ((p.take j).asString) else none
      | none => none
  | _ => none

/-- The group captured at one candidate start by the lazy `tuple` pattern:
the shortest non-empty newline-free run followed by a closing bracket, i.e.
everything up to the first `]` at offset at least one. -/
def tupleFirstGroup (r : List Char) : Option (List Char) :=
  let p := r.takeWhile (fun c => c ≠ '\n')
  match p with
  | [] => none
  | _ :: ptail =>
      match ptail.findIdx? (fun c => c = ']') with
      | some k => some (p.take (k + 1))
      | none => none

/-- `re.search` of the tuple pattern: try every start position left to
right; at each position require the literal `tuple[` and then a lazily
captured group. -/
def tupleSearchGroup : List Char → Option (List Char)
  | [] => none
  | c :: rest =>
      match c :: rest with
      | 't' :: 'u' :: 'p' :: 'l' :: 'e' :: '[' :: r =>
          match tupleFirstGroup r with
          | some g => some g
          | none => tupleSearchGroup rest
      | _ => tupleSearchGroup rest

/-- Python `str.split(sep)` for a one-character separator: splitting the
empty string gives `[""]`, and every separator occurrence opens a new
(possibly empty) field. -/
def splitOnChar (c : Char) : List Char → List (List Char)
  | [] => [[]]
  | x :: rest =>
      let r := splitOnChar c rest
      if x = c then [] :: r
      else
        match r with
        | [] => [[x]]
        | y :: ys => (x :: y) :: ys

/-- The shape fields `__post_init__` derives and stores on the argument. -/
structure ArgShape where
  is_list : Bool
  list_type : Option String
  is_tuple : Bool
  tuple_types : Option (List String)
  deriving DecidableEq, Repr

/-- `Argument.__post_init__` on the declared type string: set the list
fields from the anchored greedy match, and the tuple fields from the lazy
search, the captured tuple group being split on commas and stripped.
Construction is total — no validation of the inner types happens here. -/
def postInit (ty : String) : ArgShape :=
  let lm := listMatchGroup ty
  let tm := tupleSearchGroup ty.data
  { is_list := lm.isSome
    list_type := lm
    is_tuple := tm.isSome
    tuple_types := tm.map (fun g => (splitOnChar ',' g).map (fun f => (pyStrip f).asString)) }

/-! ### `_convert_values` — applying `TYPES_MAPPING` -/

/-- The list branch of `_convert_values`:
`[TYPES_MAPPING[list_type](x) for x in value]`.  The table lookup happens
inside the comprehension, so an unknown element type raises `KeyError`
only when the list is non-empty. -/
def convertList (list_type : String) : List String → Except String (List Value)
  | [] => Except.ok []
  | x :: rest =>
      match TYPES_MAPPING list_type with
      | none => Except.error ("KeyError: " ++ list_type)
      | some conv => do
          let v ← conv x
          let vs ← convertList list_type rest
          return v :: vs

/-- `converters = [TYPES_MAPPING[x] for x in tuple_types]`: eager lookups
over the declared tuple types. -/
def getConverters (tuple_types : List String) :
    Except String (List (String → Except String Value)) :=
  match tuple_types with
  | [] => Except.ok []
  | t :: rest =>
      match TYPES_MAPPING t with
      | none => Except.error ("KeyError: " ++ t)
      | some conv => do
          let cs ← getConverters rest
          return conv :: cs

/-- Apply converters positionally: `zip` truncates to the shorter of the
two sequences, exactly like Python `zip`. -/
def zipApply : List (String → Except String Value) → List String →
    Except String (List Value)
  | conv :: convs, v :: vs => do
      let x ← conv v
      let xs ← zipApply convs vs
      return x :: xs
  | _, _ => Except.ok []

/-- The tuple branch of `_convert_values`. -/
def convertTuple (tuple_types : List String) (values : List String) :
    Except String (List Value) := do
  let convs ← getConverters tuple_types
  zipApply convs values

/-- The list-of-tuples branch of `_convert_values`. -/
def convertTuplesList (tuple_types : List String) :
    List (List String) → Except String (List (List Value))
  | [] => Except.ok []
  | e :: rest => do
      let v ← convertTuple tuple_types e
      let vs ← convertTuplesList tuple_types rest
      return v :: vs

/-- A fully resolved argument value: scalar, sequence, or sequence of
sequences (the source stores tuples as Python lists). -/
inductive Resolved
  | scalar (v : Value)
  | seq (l : List Value)
  | seqSeq (l : List (List Value))
  deriving DecidableEq, Repr

/-- The per-argument pipeline of `_calculate_lists_and_tuples` followed by
`_convert_values`, applied to a raw string value: lists are split and
element-converted, tuples are tokenized, arity-checked and positionally
converted, lists of tuples are composed, and scalars go straight through
the `TYPES_MAPPING` converter for the declared type. -/
def resolveString (shape : ArgShape) (ty name value : String) :
    Except String Resolved :=
  if shape.is_list && !shape.is_tuple then do
    let l ← parseList value
    let cv ← convertList (shape.list_type.getD "") l
    return Resolved.seq cv
  else if !shape.is_list && shape.is_tuple then do
    let t ← parseTuple name (shape.tuple_types.getD []) value
    let cv ← convertTuple (shape.tuple_types.getD []) t
    return Resolved.seq cv
  else if shape.is_list && shape.is_tuple then do
    let ts ← parseListOfTuples name (shape.tuple_types.getD []) value
    let cv ← convertTuplesList (shape.tuple_types.getD []) ts
    return Resolved.seqSeq cv
  else
    match TYPES_MAPPING ty with
    | none => Except.error ("KeyError: " ++ ty)
    | some conv => do
        let v ← conv value
        return Resolved.scalar v

/-! ### `_fallback_values` -/

/-- First `if` of `_fallback_values`: when the CLI reader produced `None`
and an env var is declared, the value becomes `os.getenv` of it (which may
again be `None`). -/
def fallbackEnv : Option String → Option String → (String → Option String) →
    Option String
  | none, some e, getenv => getenv e
  | none, none, _ => none
  | some s, _, _ => some s

/-- Second `if` of `_fallback_values`: when the value is still `None` and a
default is declared, the value becomes the default. -/
def fallbackDefault : Option String → Option String → Option String
  | none, some d => some d
  | none, none => none
  | some v, _ => some v

/-- One argument's pass of `_fallback_values`: the two `if`s in sequence.
A remaining `none` is the valid "absent" terminal outcome — the function
never fails. -/
def fallbackValue (cliVal : Option String) (env_var : Option String)
    (getenv : String → Option String) (default_value : Option String) :
    Option String :=
  fallbackDefault (fallbackEnv cliVal env_var getenv) default_value

/-- The fallback chain as the specification states it: CLI value first
(even an empty string), else the environment value, else the default, else
absent.  Stated independently of `fallbackValue` for comparison. -/
def fallbackChainSpec (cliVal : Option String) (env_var : Option String)
    (getenv : String → Option String) (default_value : Option String) :
    Option String :=
  match cliVal with
  | some s => some s
  | none =>
      match env_var.bind getenv with
      | some v => some v
      | none => default_value

/-! ## Theorems -/

/-- C4: the resolved raw value is the CLI value whenever present — even the
empty string — otherwise the env value, otherwise the default, otherwise
absent; an all-absent chain resolves to absent without error. -/
theorem fallback_chain_correct :
    (∀ (cliVal env_var : Option String) (getenv : String → Option String)
        (default_value : Option String),
        fallbackValue cliVal env_var getenv default_value =
          fallbackChainSpec cliVal env_var getenv default_value) ∧
    (∀ getenv : String → Option String, fallbackValue none none getenv none = none) ∧
    (∀ (env_var : Option String) (getenv : String → Option String)
        (default_value : Option String),
        fallbackValue (some "") env_var getenv default_value = some "") := by
  refine ⟨fun c e g d => ?_, fun _ => rfl, fun e g d => by cases e <;> cases d <;> rfl⟩
  cases c with
  | some s => cases e <;> cases d <;> rfl
  | none =>
    cases e with
    | none => cases d <;> rfl
    | some ev =>
      cases hg : g ev with
      | none =>
        cases d <;> simp [fallbackValue, fallbackEnv, fallbackDefault, fallbackChainSpec, hg]
      | some v =>
        simp [fallbackValue, fallbackEnv, fallbackDefault, fallbackChainSpec, hg]

/-- C5: the converter for the `bool` and `switch` kinds maps exactly `"0"`
and `"False"` to false, the empty string to false, and every other string
(including `"1"`, `"True"`, `"yes"`) to true. -/
theorem str_to_bool_table :
    (∀ v : String, str_to_bool v = (!(v == "0") && !(v == "False") && !(v == ""))) ∧
    TYPES_MAPPING "bool" = some boolSwitchConv ∧
    TYPES_MAPPING "switch" = some boolSwitchConv ∧
    str_to_bool "yes" = true ∧ str_to_bool "1" = true ∧ str_to_bool "True" = true ∧
    str_to_bool "0" = false ∧ str_to_bool "False" = false ∧ str_to_bool "" = false := by
  refine ⟨fun v => ?_, rfl, rfl, rfl, rfl, rfl, rfl, rfl, rfl⟩
  by_cases h0 : v = "0" <;> by_cases hF : v = "False" <;>
    by_cases h1 : v = "1" <;> by_cases hT : v = "True" <;>
    by_cases hE : v = "" <;>
    simp_all [str_to_bool]

/-- C6: list splitting of `"a;b;c"` on `;` yields exactly `["a","b","c"]`,
and the empty raw string yields the single-element list `[""]`, not the
empty list. -/
theorem parseList_basic_and_empty :
    parseList "a;b;c" = Except.ok ["a", "b", "c"] ∧
    parseList "" = Except.ok [""] ∧
    splitList "" = Except.ok [""] :=
  ⟨rfl, rfl, rfl⟩

/-- C1 counterexample: list parsing of `"a;;b"` yields the three elements
`["a","","b"]`, not the two elements `["a","b"]` the claim requires. -/
theorem parseList_doubled_delim_counterexample :
    parseList "a;;b" = Except.ok ["a", "", "b"] ∧
    ["a", "", "b"] ≠ (["a", "b"] : List String) :=
  ⟨rfl, by decide⟩

/-- C1 amended: the rewrite loop does turn `" a;;b "` into `" a; ;b "`, but
the inserted space becomes its own delimiter-separated chunk which
shell-tokenizes to nothing, so `"a;;b"` parses to the three elements
`["a","","b"]` (the middle one empty), not to `["a","b"]`. -/
theorem parseList_doubled_delim :
    rewriteDD (" a;;b ").data = (" a; ;b ").data ∧
    splitList "a;;b" = Except.ok [" a", " ", "b "] ∧
    parseList "a;;b" = Except.ok ["a", "", "b"] :=
  ⟨rfl, rfl, rfl⟩

/-- C3 counterexample: tuple parsing of the empty raw string against the
arity-2 descriptor `tuple[int,str]` succeeds with `[""]`; no arity error is
raised although the arity is not 1. -/
theorem parseTuple_empty_counterexample :
    parseTuple "x" ["int", "str"] "" = Except.ok [""] ∧
    (["int", "str"] : List String).length ≠ 1 :=
  ⟨rfl, by decide⟩

/-- C3 amended: the empty raw string shell-tokenizes to no tokens, and
`_parse_tuple` then returns `[""]` before the arity check is ever reached,
for every declared arity; downstream conversion zips positionally and
truncates, so e.g. `tuple[str,str]` resolves `""` to the single element
`[""]` without any error. -/
theorem parseTuple_empty_bypasses_arity :
    (∀ (name : String) (tuple_types : List String),
        parseTuple name tuple_types "" = Except.ok [""]) ∧
    resolveString (postInit "tuple[str,str]") "tuple[str,str]" "x" "" =
      Except.ok (Resolved.seq [Value.str ""]) :=
  ⟨fun _ _ => rfl, rfl⟩

/-- C8 counterexample: constructing a descriptor with type `list[float]`
(unknown element kind `float`) succeeds and populates the shape fields;
`__post_init__` performs no validation and raises nothing. -/
theorem postInit_unknown_scalar_counterexample :
    postInit "list[float]" =
      { is_list := true, list_type := some "float",
        is_tuple := false, tuple_types := none } :=
  rfl

/-- C8 amended: descriptor construction never validates the inner type of a
`list[...]` declaration; an unknown element kind only surfaces later as a
failed `TYPES_MAPPING` lookup (a `KeyError`) when a value is actually
converted — and not at all when no element is converted. -/
theorem postInit_no_validation :
    postInit "list[float]" =
      { is_list := true, list_type := some "float",
        is_tuple := false, tuple_types := none } ∧
    TYPES_MAPPING "float" = none ∧
    convertList "float" [] = Except.ok [] ∧
    convertList "float" ["1"] = Except.error "KeyError: float" ∧
    resolveString (postInit "list[float]") "list[float]" "x" "1" =
      Except.error "KeyError: float" :=
  ⟨rfl, rfl, rfl, rfl, rfl⟩

/-- C2 counterexample: the whitespace-only raw string `" "` is non-empty
and shell-tokenizes to zero tokens — a count different from the declared
arity 2 — yet `_parse_tuple` succeeds with `[""]` instead of failing. -/
theorem parseTuple_arity_counterexample :
    (" " : String) ≠ "" ∧ shlexSplit " " = Except.ok [] ∧
    (0 : Nat) ≠ (["int", "str"] : List String).length ∧
    parseTuple "x" ["int", "str"] " " = Except.ok [""] :=
  ⟨by decide, rfl, by decide, rfl⟩

/-- Helper: `parseTuple` with a successful tokenization is the arity-check
cascade on the token count. -/
theorem parseTuple_eq_of_shlex (name : String) (tuple_types : List String)
    (value : String) (toks : List String) (h : shlexSplit value = Except.ok toks) :
    parseTuple name tuple_types value =
      (if toks.length = 0 then Except.ok [""]
       else if toks.length ≠ tuple_types.length then
         Except.error (mkArityMsg name tuple_types.length toks.length value)
       else Except.ok toks) := by
  unfold parseTuple
  rw [h]
  rfl

/-- C2 amended: with a successful shell tokenization, `_parse_tuple` raises
the arity `RuntimeError` — whose message names the argument, expected and
actual counts, and the raw string — exactly when the token count is
non-zero and differs from the declared arity (a zero-token raw string
short-circuits to `[""]` with no check); the two concrete scenarios of the
claim behave as stated. -/
theorem parseTuple_arity :
    (∀ (name : String) (tuple_types : List String) (value : String)
        (toks : List String), shlexSplit value = Except.ok toks →
        ((∃ msg, parseTuple name tuple_types value = Except.error msg) ↔
          toks.length ≠ 0 ∧ toks.length ≠ tuple_types.length) ∧
        (toks.length ≠ 0 → toks.length ≠ tuple_types.length →
          parseTuple name tuple_types value =
            Except.error (mkArityMsg name tuple_types.length toks.length value)) ∧
        (toks.length ≠ 0 → toks.length = tuple_types.length →
          parseTuple name tuple_types value = Except.ok toks)) ∧
    resolveString (postInit "tuple[int,str]") "tuple[int,str]" "x" "5 hello" =
      Except.ok (Resolved.seq [Value.int 5, Value.str "hello"]) ∧
    parseTuple "x" ["int", "str"] "5" = Except.error (mkArityMsg "x" 2 1 "5") := by
  refine ⟨fun name tys value toks h => ?_, rfl, rfl⟩
  rw [parseTuple_eq_of_shlex name tys value toks h]
  by_cases hz : toks.length = 0
  · rw [if_pos hz]
    exact ⟨by simp [hz], fun h1 _ => absurd hz h1, fun h1 _ => absurd hz h1⟩
  · rw [if_neg hz]
    by_cases ha : toks.length = tys.length
    · rw [if_neg (fun hne => hne ha)]
      exact ⟨by simp [hz, ha], fun _ hne => absurd ha hne, fun _ _ => rfl⟩
    · rw [if_pos ha]
      exact ⟨by simp [hz, ha], fun _ _ => rfl, fun _ heq => absurd heq ha⟩

/-- Witness for the amended C2 at the concrete failing input of the claim. -/
theorem parseTuple_arity_witness :
    (∃ msg, parseTuple "x" ["int", "str"] "5" = Except.error msg) ↔
      ([("5" : String)].length ≠ 0 ∧
        [("5" : String)].length ≠ (["int", "str"] : List String).length) :=
  (parseTuple_arity.1 "x" ["int", "str"] "5" ["5"] rfl).1

/-- Helper: the element loop of `_parse_list` maps first-token extraction
over the chunks. -/
theorem parseListElems_eq_mapM' (l : List String) :
    parseListElems l =
      l.mapM' (fun e => (shlexSplit e).map (fun toks => toks.headD "")) := by
  induction l with
  | nil => rfl
  | cons v rest ih =>
    rw [List.mapM'_cons, ← ih]
    cases h : shlexSplit v with
    | error e => simp [parseListElems, h, Bind.bind, Except.bind, Except.map]
    | ok toks =>
      cases toks with
      | nil => simp [parseListElems, h, Bind.bind, Except.bind, Except.map]
      | cons t ts => simp [parseListElems, h, Bind.bind, Except.bind, Except.map]

/-- C9: `_parse_list` shell-tokenizes each delimiter-separated chunk and
keeps only the first token (the empty string when there is none); in
particular `"a b;c"` ends up as the one chunk `" a b"` and the chunk
`"c "`, so it resolves to `["a","c"]`, silently discarding `"b"`. -/
theorem parseList_first_token :
    (∀ value : String,
        parseList value = (splitList value).bind
          (fun chunks =>
            chunks.mapM' (fun e => (shlexSplit e).map (fun toks => toks.headD "")))) ∧
    splitList "a b;c" = Except.ok [" a b", "c "] ∧
    shlexSplit " a b" = Except.ok ["a", "b"] ∧
    parseList "a b;c" = Except.ok ["a", "c"] := by
  refine ⟨fun value => ?_, rfl, rfl, rfl⟩
  unfold parseList
  cases h : splitList value with
  | error e => simp [h, Bind.bind, Except.bind]
  | ok chunks => simp [h, Bind.bind, Except.bind, parseListElems_eq_mapM']

/-- Helper: the element loop of `_parse_list_of_tuples` maps `_parse_tuple`
over the chunks. -/
theorem parseTuples_eq_mapM' (name : String) (tuple_types : List String)
    (l : List String) :
    parseTuples name tuple_types l = l.mapM' (parseTuple name tuple_types) := by
  induction l with
  | nil => rfl
  | cons v rest ih =>
    rw [List.mapM'_cons, ← ih]
    cases h : parseTuple name tuple_types v with
    | error e => simp [parseTuples, h, Bind.bind, Except.bind]
    | ok t => simp [parseTuples, h, Bind.bind, Except.bind]

/-- C7: a `list[tuple[...]]` raw string is first list-split on the
delimiter and tuple splitting is then applied independently to each chunk,
the first arity failure propagating with its message; the descriptor
`list[tuple[int,int]]` resolves `"1 2;3 4"` to `[(1,2),(3,4)]`. -/
theorem parseListOfTuples_composition :
    (∀ (name : String) (tuple_types : List String) (value : String),
        parseListOfTuples name tuple_types value =
          (splitList value).bind
            (fun chunks => chunks.mapM' (parseTuple name tuple_types))) ∧
    resolveString (postInit "list[tuple[int,int]]") "list[tuple[int,int]]" "x" "1 2;3 4" =
      Except.ok (Resolved.seqSeq [[Value.int 1, Value.int 2], [Value.int 3, Value.int 4]]) ∧
    parseListOfTuples "x" ["int", "int"] "1 2;3" =
      Except.error (mkArityMsg "x" 2 1 "3 ") := by
  refine ⟨fun name tys value => ?_, rfl, rfl⟩
  unfold parseListOfTuples
  cases h : splitList value with
  | error e => simp [h, Bind.bind, Except.bind]
  | ok chunks => simp [h, Bind.bind, Except.bind, parseTuples_eq_mapM']

/-- Helper: replacing the leftmost `;;` keeps the head character. -/
theorem replaceFirstDD_cons (b : Char) (rest : List Char) :
    ∃ t, replaceFirstDD (b :: rest) = b :: t := by
  cases rest with
  | nil => exact ⟨[], rfl⟩
  | cons c r =>
    by_cases h : b = ';' ∧ c = ';'
    · exact ⟨' ' :: ';' :: r, by simp [replaceFirstDD, h, h.1]⟩
    · exact ⟨replaceFirstDD (c :: r), by simp [replaceFirstDD, h]⟩

/-- Helper: each rewrite step removes exactly one adjacent delimiter pair. -/
theorem countDD_replaceFirstDD :
    ∀ s : List Char, hasDD s = true → countDD (replaceFirstDD s) + 1 = countDD s := by
  intro s
  induction s with
  | nil => intro h; simp [hasDD] at h
  | cons a t ih =>
    cases t with
    | nil => intro h; simp [hasDD] at h
    | cons b rest =>
      intro h
      by_cases hab : a = ';' ∧ b = ';'
      · obtain ⟨ha, hb⟩ := hab
        subst ha; subst hb
        simp [replaceFirstDD, countDD]
        omega
      · have h' : hasDD (b :: rest) = true := by
          rw [hasDD] at h
          rcases Bool.or_eq_true_iff.mp h with h1 | h1
          · exact absurd ⟨of_decide_eq_true (Bool.and_eq_true_iff.mp h1).1,
              of_decide_eq_true (Bool.and_eq_true_iff.mp h1).2⟩ hab
          · exact h1
        obtain ⟨t', ht'⟩ := replaceFirstDD_cons b rest
        have hs : replaceFirstDD (a :: b :: rest) = a :: replaceFirstDD (b :: rest) := by
          simp [replaceFirstDD, hab]
        rw [hs, ht', countDD, countDD, ← ht']
        have := ih h'
        omega

/-- Helper: no adjacent pair is exactly a zero pair count. -/
theorem hasDD_eq_false_iff : ∀ s : List Char, hasDD s = false ↔ countDD s = 0 := by
  intro s
  induction s with
  | nil => simp [hasDD, countDD]
  | cons a t ih =>
    cases t with
    | nil => simp [hasDD, countDD]
    | cons b rest =>
      by_cases hab : a = ';' ∧ b = ';'
      · simp [hasDD, countDD, hab.1, hab.2]
      · rw [hasDD, countDD, if_neg hab]
        simp only [Bool.or_eq_false_iff]
        constructor
        · intro ⟨_, h2⟩
          simpa using ih.mp h2
        · intro hz
          refine ⟨?_, ih.mpr (by simpa using hz)⟩
          by_cases hA : a = ';' <;> by_cases hB : b = ';' <;>
            simp_all

/-- Helper: a budget of at least `countDD s` iterations drives the rewrite
loop to a string with no doubled delimiter left. -/
theorem rewriteGo_complete : ∀ (n : Nat) (s : List Char), countDD s ≤ n →
    hasDD (rewriteGo n s) = false := by
  intro n
  induction n with
  | zero =>
    intro s hs
    have : countDD s = 0 := Nat.le_zero.mp hs
    exact (hasDD_eq_false_iff s).mpr this
  | succ n ih =>
    intro s hs
    by_cases h : hasDD s
    · have hd := countDD_replaceFirstDD s h
      rw [rewriteGo, if_pos h]
      exact ih (replaceFirstDD s) (by omega)
    · rw [rewriteGo, if_neg h]
      exact Bool.of_not_eq_true h

/-- Helper: the budgeted loop computes an iterate of the step function. -/
theorem rewriteGo_iterate : ∀ (n : Nat) (s : List Char),
    ∃ m, rewriteGo n s = replaceFirstDD^[m] s := by
  intro n
  induction n with
  | zero => exact fun s => ⟨0, rfl⟩
  | succ n ih =>
    intro s
    by_cases h : hasDD s
    · obtain ⟨m, hm⟩ := ih (replaceFirstDD s)
      refine ⟨m + 1, ?_⟩
      rw [rewriteGo, if_pos h, hm, Function.iterate_succ_apply]
    · exact ⟨0, by rw [rewriteGo, if_neg h]; rfl⟩

/-- C10: the doubled-delimiter rewrite loop terminates on every input —
each replacement strictly decreases the number of adjacent delimiter
pairs, and the loop (an iterate of the single-replacement step) ends in a
string with no `;;` occurrence. -/
theorem rewrite_loop_terminates :
    ∀ s : List Char,
      (hasDD s = true → countDD (replaceFirstDD s) < countDD s) ∧
      hasDD (rewriteDD s) = false ∧
      ∃ m, rewriteDD s = replaceFirstDD^[m] s :=
  fun s =>
    ⟨fun h => by have := countDD_replaceFirstDD s h; omega,
     rewriteGo_complete (countDD s) s (Nat.le_refl _),
     rewriteGo_iterate (countDD s) s⟩

/-- Witness for C10 on the padded raw input `" a;;b "`. -/
theorem rewrite_loop_terminates_witness :
    countDD (replaceFirstDD (" a;;b ").data) < countDD (" a;;b ").data ∧
    hasDD (rewriteDD (" a;;b ").data) = false :=
  ⟨(rewrite_loop_terminates (" a;;b ").data).1 rfl,
   (rewrite_loop_terminates (" a;;b ").data).2.1⟩

end ScriptArgsParser
